import Mathlib

/-!
Shallow embedding of `src/blob.rs` from the versionize repository: the raw
`Blob` codec and the `FamBlob` codec for `FamStructWrapper` values, together
with proofs about the wire format and (de)serialization behaviour.

Bytes are modelled as natural numbers; a reader is a list of bytes consumed
from the front; a writer (the `W: Write` sink, instantiated at `Vec<u8>`)
is a list of bytes that is appended to.  Machine integers are `Nat` with
explicit `% 2 ^ w` where overflow matters.  Code that can panic (the
`unwrap()` calls in the source) is modelled by a dedicated `Outcome.panicked`
constructor, distinct from returning a `VersionizeError`.
-/

/-- Model of a single byte on the wire. -/
abbrev Byte := Nat

/-- Model of a byte source (`R: Read`): the bytes still unread, front first. -/
abbrev ByteStream := List Byte

/-- Error kinds of the (de)serialization layer, per the spec's error design:
truncated input, underlying I/O failure, and a failure wrapped from the
entry sequence's own decode. -/
inductive VersionizeError where
  | truncatedInput
  | ioFailure
  | entryDecodeFailure
  deriving DecidableEq

/-- Result of running a fallible operation from the source: a normal return
value, a returned typed error, or a process panic (the source's `unwrap()`
on an `Err`).  No constructor carries partial data. -/
inductive Outcome (α : Type) where
  | ok : α → Outcome α
  | err : VersionizeError → Outcome α
  | panicked : Outcome α
  deriving DecidableEq

/-- Model of `Read::read_exact` into an n-byte buffer: succeeds with the
first n bytes and the remaining stream, or reports end-of-file when fewer
than n bytes are available. -/
def readExact (n : Nat) (r : ByteStream) : Option (List Byte × ByteStream) :=
  if n ≤ r.length then some (r.take n, r.drop n) else none

/-- Little-endian byte image of a natural number in a fixed width `w` of
bytes (truncating like an `as uN` cast when the value does not fit). -/
def natToLeBytes : Nat → Nat → List Byte
  | 0, _ => []
  | w + 1, n => n % 256 :: natToLeBytes w (n / 256)

/-- Natural number denoted by a little-endian byte list. -/
def leBytesToNat : List Byte → Nat
  | [] => 0
  | b :: bs => b + 256 * leBytesToNat bs

/-- Memory layout of a statically sized plain type `T`: its `size_of`, the
raw byte image of a value, and reinterpretation of a byte image as a value,
with the physical facts the layout guarantees (the image has exactly
`size_of` bytes, and reading a value's image back yields the value). -/
structure Layout (α : Type) where
  size : Nat
  toBytes : α → List Byte
  ofBytes : List Byte → α
  toBytes_length : ∀ a, (toBytes a).length = size
  ofBytes_toBytes : ∀ a, ofBytes (toBytes a) = a

/-- Operations the `FamStruct` trait provides on a header type: a default
value, the embedded length/count field, and writing that field (used by
`FamStructWrapper::from_entries`). -/
structure FamStructOps (α : Type) extends Layout α where
  dfl : α
  famLen : α → Nat
  setFamLen : α → Nat → α

/-- Model of `Blob::<T>::write_bytes` (blob.rs:22-25): append the raw byte
image of the value to the sink. -/
def Blob.writeBytes (L : Layout α) (sink : List Byte) (t : α) : List Byte :=
  sink ++ L.toBytes t

/-- Model of `Blob::<T>::serialize` (blob.rs:34-43): writes the raw image,
ignoring the version map and target version; the `Vec<u8>` sink cannot
fail, so the call always returns the extended sink. -/
def Blob.serialize {V : Type} (L : Layout α) (a : α) (_vm : V) (_tv : Nat)
    (sink : List Byte) : List Byte :=
  Blob.writeBytes L sink a

/-- Model of `Blob::<T>::deserialize` (blob.rs:45-56): default-initialize,
then `read_exact` the value's bytes.  The source calls `unwrap()` on the
read, so a short stream panics instead of returning an error; on success
the freshly read image fully overwrites the default value. -/
def Blob.deserialize {V : Type} (L : Layout α) (_vm : V) (_sv : Nat)
    (r : ByteStream) : Outcome (α × ByteStream) :=
  match readExact L.size r with
  | some (bs, rest) => .ok (L.ofBytes bs, rest)
  | none => .panicked

/-- Model of `Blob::version` (blob.rs:58-60). -/
def Blob.version : Nat := 1

/-- Model of `vmm_sys_util::fam::FamStructWrapper`: owns a header value and
the entry storage.  The externally visible entry count is read from the
header's embedded length field, as in the library. -/
structure FamStructWrapper (α ε : Type) where
  header : α
  entries : List ε
  deriving DecidableEq

/-- Model of `FamStructWrapper::from_entries`: fresh wrapper whose header is
default-initialized except for the length field, which is derived from the
number of entries. -/
def FamStructWrapper.fromEntries (H : FamStructOps α) (es : List ε) :
    FamStructWrapper α ε :=
  ⟨H.setFamLen H.dfl es.length, es⟩

/-- Model of `FamStructWrapper::len`: the externally visible entry count,
read from the header's embedded length field. -/
def FamStructWrapper.famWrapperLen (H : FamStructOps α)
    (w : FamStructWrapper α ε) : Nat :=
  H.famLen w.header

/-- Model of `FamStructWrapper::as_slice`: the entry slice whose length is
dictated by the header's length field. -/
def FamStructWrapper.asSlice (H : FamStructOps α)
    (w : FamStructWrapper α ε) : List ε :=
  w.entries.take (H.famLen w.header)

/-- Modelled from the spec: the entry sequence's own wire encoding
(`Vec<Blob<Entry>>::serialize`, an external collaborator not under src/).
Per the spec's wire format, the sequence is written as an explicit length
indicator (a fixed eight-byte little-endian count, truncating like a cast
to a 64-bit machine word) followed by the concatenation of the entries'
raw byte images, each entry written through the Blob codec. -/
def VecBlob.serialize {V : Type} (E : Layout ε) (es : List ε) (_vm : V)
    (_tv : Nat) (sink : List Byte) : List Byte :=
  sink ++ natToLeBytes 8 es.length ++ es.flatMap E.toBytes

/-- Decode loop of the entry sequence: reads the announced number of
entries one by one, each through `Blob::<Entry>::deserialize` from src/
(which panics on a short read). -/
def VecBlob.deserializeLoop {V : Type} (E : Layout ε) (vm : V) (sv : Nat) :
    Nat → ByteStream → Outcome (List ε × ByteStream)
  | 0, r => .ok ([], r)
  | n + 1, r =>
    match Blob.deserialize E vm sv r with
    | .ok (e, rest) =>
      match VecBlob.deserializeLoop E vm sv n rest with
      | .ok (es, r2) => .ok (e :: es, r2)
      | .err x => .err x
      | .panicked => .panicked
    | .err x => .err x
    | .panicked => .panicked

/-- Modelled from the spec: decode side of the entry sequence's wire
encoding (`Vec<Blob<Entry>>::deserialize`, external collaborator not under
src/).  Reads the eight-byte length indicator — a shortfall there is a
failure of the sequence codec itself, reported as a typed entry-decode
error — then decodes that many entries via the Blob codec from src/. -/
def VecBlob.deserialize {V : Type} (E : Layout ε) (vm : V) (sv : Nat)
    (r : ByteStream) : Outcome (List ε × ByteStream) :=
  match readExact 8 r with
  | some (lenBytes, rest) =>
    VecBlob.deserializeLoop E vm sv (leBytesToNat lenBytes) rest
  | none => .err .entryDecodeFailure

/-- Model of `FamBlob::serialize` (blob.rs:77-92): write the header's raw
byte image through the Blob codec, then the entry slice through the
sequence codec. -/
def FamBlob.serialize {V : Type} (H : FamStructOps α) (E : Layout ε)
    (w : FamStructWrapper α ε) (vm : V) (tv : Nat) (sink : List Byte) :
    List Byte :=
  VecBlob.serialize E (w.asSlice H) vm tv
    (Blob.writeBytes H.toLayout sink w.header)

/-- Model of `FamBlob::deserialize` (blob.rs:94-114): decode the header via
the Blob codec, decode the entries via the sequence codec, construct a
wrapper from the entries, then assign the whole decoded header over the
wrapper's header (blob.rs:111). -/
def FamBlob.deserialize {V : Type} (H : FamStructOps α) (E : Layout ε)
    (vm : V) (sv : Nat) (r : ByteStream) :
    Outcome (FamStructWrapper α ε × ByteStream) :=
  match Blob.deserialize H.toLayout vm sv r with
  | .ok (header, r1) =>
    match VecBlob.deserialize E vm sv r1 with
    | .ok (entries, r2) =>
      .ok ({ FamStructWrapper.fromEntries H entries with header := header }, r2)
    | .err x => .err x
    | .panicked => .panicked
  | .err x => .err x
  | .panicked => .panicked

/-- Model of `FamBlob::version` (blob.rs:116-118). -/
def FamBlob.version : Nat := 1

theorem natToLeBytes_length (w n : Nat) : (natToLeBytes w n).length = w := by
  induction w generalizing n with
  | zero => rfl
  | succ w ih => simp [natToLeBytes, ih]

theorem leBytesToNat_natToLeBytes (w n : Nat) (h : n < 2 ^ (8 * w)) :
    leBytesToNat (natToLeBytes w n) = n := by
  induction w generalizing n with
  | zero =>
    simp only [Nat.mul_zero, pow_zero, Nat.lt_one_iff] at h
    simp [natToLeBytes, leBytesToNat, h]
  | succ w ih =>
    have hdiv : n / 256 < 2 ^ (8 * w) := by
      rw [Nat.div_lt_iff_lt_mul (by norm_num : 0 < 256)]
      calc n < 2 ^ (8 * (w + 1)) := h
        _ = 2 ^ (8 * w) * 256 := by rw [Nat.mul_succ, pow_add]; norm_num
    simp [natToLeBytes, leBytesToNat, ih _ hdiv, Nat.mod_add_div]

theorem readExact_append (xs ys : List Byte) :
    readExact xs.length (xs ++ ys) = some (xs, ys) := by
  unfold readExact
  rw [if_pos (by simp)]
  rw [List.take_left, List.drop_left]

theorem readExact_eq_of_length (n : Nat) (xs ys : List Byte)
    (h : xs.length = n) : readExact n (xs ++ ys) = some (xs, ys) := by
  subst h; exact readExact_append xs ys

theorem readExact_short (n : Nat) (r : ByteStream) (h : r.length < n) :
    readExact n r = none := by
  unfold readExact
  rw [if_neg (by omega)]

/-- Decoding a stream that starts with a value's raw image yields the value
and the remaining stream. -/
theorem Blob.deserialize_append {V : Type} (L : Layout α) (vm : V) (sv : Nat)
    (a : α) (rest : ByteStream) :
    Blob.deserialize L vm sv (L.toBytes a ++ rest) = .ok (a, rest) := by
  unfold Blob.deserialize
  rw [readExact_eq_of_length L.size (L.toBytes a) rest (L.toBytes_length a)]
  show Outcome.ok (L.ofBytes (L.toBytes a), rest) = Outcome.ok (a, rest)
  rw [L.ofBytes_toBytes a]

/-- Decoding runs of entry images: reading back exactly the announced
number of entries from their concatenated raw images recovers the entry
sequence and leaves the trailing stream unread. -/
theorem VecBlob.deserializeLoop_roundTrip {V : Type} (E : Layout ε) (vm : V)
    (sv : Nat) (es : List ε) (extra : ByteStream) :
    VecBlob.deserializeLoop E vm sv es.length (es.flatMap E.toBytes ++ extra) =
      .ok (es, extra) := by
  induction es generalizing extra with
  | nil => simp [VecBlob.deserializeLoop]
  | cons e es ih =>
    have hs : (e :: es).flatMap E.toBytes ++ extra =
        E.toBytes e ++ (es.flatMap E.toBytes ++ extra) := by
      simp [List.append_assoc]
    rw [hs]
    show VecBlob.deserializeLoop E vm sv (es.length + 1) _ = _
    simp [VecBlob.deserializeLoop, Blob.deserialize_append, ih extra]

/-- Decoding a well-formed length-indicated entry stream recovers the
entry sequence and leaves the trailing stream unread, provided the count
fits the eight-byte length indicator. -/
theorem VecBlob.deserialize_length_indicated {V : Type} (E : Layout ε) (vm : V)
    (sv : Nat) (es : List ε) (extra : ByteStream) (h : es.length < 2 ^ 64) :
    VecBlob.deserialize E vm sv
      (natToLeBytes 8 es.length ++ (es.flatMap E.toBytes ++ extra)) =
      .ok (es, extra) := by
  unfold VecBlob.deserialize
  rw [readExact_eq_of_length 8 _ _ (natToLeBytes_length 8 es.length)]
  show VecBlob.deserializeLoop E vm sv (leBytesToNat (natToLeBytes 8 es.length)) _ = _
  rw [leBytesToNat_natToLeBytes 8 es.length (by norm_num at h ⊢; omega)]
  exact VecBlob.deserializeLoop_roundTrip E vm sv es extra

/-- Unfolding the wire image produced by the FAM codec: sink, then the
header's raw image, then the length indicator, then the entry images. -/
theorem FamBlob.serialize_eq {V : Type} (H : FamStructOps α) (E : Layout ε)
    (w : FamStructWrapper α ε) (vm : V) (tv : Nat) (sink : List Byte) :
    FamBlob.serialize H E w vm tv sink =
      sink ++ H.toLayout.toBytes w.header ++
        (natToLeBytes 8 (w.asSlice H).length ++ (w.asSlice H).flatMap E.toBytes) := by
  unfold FamBlob.serialize VecBlob.serialize Blob.writeBytes
  simp [List.append_assoc]

/-- Inversion of a successful blob decode: the value is the
reinterpretation of the stream's first bytes and the remainder is the
stream with those bytes consumed. -/
theorem Blob.deserialize_ok_inv {V : Type} (L : Layout α) (vm : V) (sv : Nat)
    (r : ByteStream) (a : α) (rest : ByteStream)
    (h : Blob.deserialize L vm sv r = .ok (a, rest)) :
    a = L.ofBytes (r.take L.size) ∧ rest = r.drop L.size := by
  unfold Blob.deserialize readExact at h
  by_cases hc : L.size ≤ r.length
  · rw [if_pos hc] at h
    have h' : Outcome.ok (L.ofBytes (r.take L.size), r.drop L.size) =
        Outcome.ok (a, rest) := h
    injection h' with h1
    exact ⟨(congrArg Prod.fst h1).symm, (congrArg Prod.snd h1).symm⟩
  · rw [if_neg hc] at h
    have h' : (Outcome.panicked : Outcome (α × ByteStream)) =
        Outcome.ok (a, rest) := h
    cases h'

/-- Value of the embedded 32-bit count field of the test header. -/
def toU32 (n : Nat) : Fin (2 ^ 32) :=
  ⟨n % 2 ^ 32, Nat.mod_lt _ (by norm_num)⟩

/-- Value of a one-byte test entry. -/
def toU8 (n : Nat) : Fin (2 ^ 8) :=
  ⟨n % 2 ^ 8, Nat.mod_lt _ (by norm_num)⟩

/-- Concrete fam-struct header used for witnesses: an embedded 32-bit
count field followed by a 32-bit flags field, eight bytes in total. -/
structure TestHeader where
  count : Fin (2 ^ 32)
  flags : Fin (2 ^ 32)
  deriving DecidableEq

/-- One-byte test entry type. -/
abbrev TestEntry := Fin (2 ^ 8)

/-- Memory layout of the test header: little-endian count then flags. -/
def TestHeader.layout : Layout TestHeader where
  size := 8
  toBytes h := natToLeBytes 4 h.count.1 ++ natToLeBytes 4 h.flags.1
  ofBytes bs :=
    ⟨toU32 (leBytesToNat (bs.take 4)), toU32 (leBytesToNat ((bs.drop 4).take 4))⟩
  toBytes_length h := by simp [natToLeBytes_length]
  ofBytes_toBytes h := by
    obtain ⟨⟨c, hc⟩, ⟨f, hf⟩⟩ := h
    have h4 : (natToLeBytes 4 c).length = 4 := natToLeBytes_length 4 c
    have hf4 : (natToLeBytes 4 f).length ≤ 4 := by rw [natToLeBytes_length]
    have htake : (natToLeBytes 4 c ++ natToLeBytes 4 f).take 4 = natToLeBytes 4 c :=
      List.take_left' h4
    have hdrop : (natToLeBytes 4 c ++ natToLeBytes 4 f).drop 4 = natToLeBytes 4 f :=
      List.drop_left' h4
    simp only [htake, hdrop, List.take_of_length_le hf4]
    rw [leBytesToNat_natToLeBytes 4 c (by norm_num at hc ⊢; omega),
      leBytesToNat_natToLeBytes 4 f (by norm_num at hf ⊢; omega)]
    simp only [toU32, TestHeader.mk.injEq]
    exact ⟨Fin.ext (Nat.mod_eq_of_lt hc), Fin.ext (Nat.mod_eq_of_lt hf)⟩

/-- FamStruct operations of the test header: the count field is the
embedded length field. -/
def TestHeader.ops : FamStructOps TestHeader where
  toLayout := TestHeader.layout
  dfl := ⟨toU32 0, toU32 0⟩
  famLen h := h.count.1
  setFamLen h n := { h with count := toU32 n }

/-- Memory layout of the one-byte test entry. -/
def TestEntry.layout : Layout TestEntry where
  size := 1
  toBytes e := [e.1]
  ofBytes bs := toU8 (bs.headD 0)
  toBytes_length e := rfl
  ofBytes_toBytes e := by
    apply Fin.ext
    simp [toU8, Nat.mod_eq_of_lt e.2]

/-- Decoding a stream made of a header image, a length indicator for the
entry count, the entry images and trailing bytes reconstructs the wrapper
from the entries, assigns the decoded header over it, and leaves the
trailing bytes unread. -/
theorem FamBlob.deserialize_wire_shape {V : Type} (H : FamStructOps α)
    (E : Layout ε) (vm : V) (sv : Nat) (hd : α) (es : List ε)
    (extra : ByteStream) (hfit : es.length < 2 ^ 64) :
    FamBlob.deserialize H E vm sv
      (H.toLayout.toBytes hd ++
        (natToLeBytes 8 es.length ++ (es.flatMap E.toBytes ++ extra))) =
      .ok (⟨hd, es⟩, extra) := by
  unfold FamBlob.deserialize
  rw [Blob.deserialize_append]
  show (match VecBlob.deserialize E vm sv
      (natToLeBytes 8 es.length ++ (es.flatMap E.toBytes ++ extra)) with
    | .ok (entries, r2) =>
      Outcome.ok ({ FamStructWrapper.fromEntries H entries with header := hd }, r2)
    | .err x => .err x
    | .panicked => .panicked) = _
  rw [VecBlob.deserialize_length_indicated E vm sv es extra hfit]
  rfl

/-- C1 — Count authority fails on the code: a wrapper built from one entry
(count N = 1) serializes to a seventeen-byte stream; tampering the header
bytes so the embedded count field reads the stale value M = 0 and decoding
the tampered stream succeeds and yields a wrapper whose externally visible
entry count is the stale 0, not the derived 1, because blob.rs:111 assigns
the whole decoded header — length field included — over the wrapper. -/
theorem famBlob_tampered_count_is_stale :
    FamBlob.serialize TestHeader.ops TestEntry.layout
      ⟨⟨toU32 1, toU32 7⟩, [toU8 5]⟩ () 1 [] =
      [1, 0, 0, 0, 7, 0, 0, 0, 1, 0, 0, 0, 0, 0, 0, 0, 5] ∧
    FamBlob.deserialize TestHeader.ops TestEntry.layout () 1
      [0, 0, 0, 0, 7, 0, 0, 0, 1, 0, 0, 0, 0, 0, 0, 0, 5] =
      .ok (⟨⟨toU32 0, toU32 7⟩, [toU8 5]⟩, []) ∧
    FamStructWrapper.famWrapperLen TestHeader.ops
      (⟨⟨toU32 0, toU32 7⟩, [toU8 5]⟩ : FamStructWrapper TestHeader TestEntry) = 0 ∧
    ([toU8 5] : List TestEntry).length = 1 := by
  exact ⟨by decide, by decide, by decide, by decide⟩

/-- C2 — FAM round-trip: for every header layout, entry layout, version
arguments and wrapper whose embedded count field agrees with its entry
storage (as every wrapper built from entries through the FamStructWrapper
constructor does) and whose entry count fits the length indicator,
serializing and deserializing returns exactly the original wrapper — the
entry sequence (empty included) is preserved and every header field,
derived count included, comes back unchanged — with nothing left unread. -/
theorem famBlob_roundTrip {V W : Type} (H : FamStructOps α) (E : Layout ε)
    (vm : V) (tv : Nat) (vm' : W) (sv : Nat) (w : FamStructWrapper α ε)
    (hcons : H.famLen w.header = w.entries.length)
    (hfit : w.entries.length < 2 ^ 64) :
    FamBlob.deserialize H E vm' sv (FamBlob.serialize H E w vm tv []) =
      .ok (w, []) := by
  obtain ⟨hd, es⟩ := w
  have hcons' : H.famLen hd = es.length := hcons
  have hfit' : es.length < 2 ^ 64 := hfit
  have hslice : FamStructWrapper.asSlice H (⟨hd, es⟩ : FamStructWrapper α ε) = es := by
    unfold FamStructWrapper.asSlice
    show es.take (H.famLen hd) = es
    rw [hcons']
    exact List.take_length es
  rw [FamBlob.serialize_eq, hslice, List.nil_append]
  have h := FamBlob.deserialize_wire_shape H E vm' sv hd es [] hfit'
  rw [List.append_nil] at h
  exact h

/-- C2 witness. -/
theorem famBlob_roundTrip_witness :
    FamBlob.deserialize TestHeader.ops TestEntry.layout () 1
      (FamBlob.serialize TestHeader.ops TestEntry.layout
        ⟨⟨toU32 2, toU32 9⟩, [toU8 3, toU8 4]⟩ () 1 []) =
      .ok (⟨⟨toU32 2, toU32 9⟩, [toU8 3, toU8 4]⟩, []) :=
  famBlob_roundTrip TestHeader.ops TestEntry.layout () 1 () 1
    ⟨⟨toU32 2, toU32 9⟩, [toU8 3, toU8 4]⟩ (by decide) (by decide)

/-- C3 — Header truncation on the code: evaluating `Blob::<T>::deserialize`
at input sources shorter than the header size (the empty stream and a
three-byte stream against the eight-byte test header) shows the call
panics — the source unwraps the failed `read_exact` — rather than
returning a TruncatedInput error as the claim states. -/
theorem blob_truncated_header_panics :
    Blob.deserialize TestHeader.layout () 1 ([] : ByteStream) = .panicked ∧
    Blob.deserialize TestHeader.layout () 1 [1, 2, 3] = .panicked := by
  exact ⟨by decide, by decide⟩

/-- C4 — Whenever `FamBlob::deserialize` returns successfully, the returned
wrapper's header — length field included — is exactly the header value
decoded from the first `size_of(T)` bytes of the input, because blob.rs:111
assigns the whole decoded header over the freshly constructed wrapper. -/
theorem famBlob_header_assigned_from_stream {V : Type} (H : FamStructOps α)
    (E : Layout ε) (vm : V) (sv : Nat) (r : ByteStream)
    (w : FamStructWrapper α ε) (rest : ByteStream)
    (h : FamBlob.deserialize H E vm sv r = .ok (w, rest)) :
    w.header = H.toLayout.ofBytes (r.take H.toLayout.size) := by
  unfold FamBlob.deserialize at h
  cases hb : Blob.deserialize H.toLayout vm sv r with
  | ok p =>
    obtain ⟨hd, r1⟩ := p
    have hhd : hd = H.toLayout.ofBytes (r.take H.toLayout.size) :=
      (Blob.deserialize_ok_inv H.toLayout vm sv r hd r1 hb).1
    rw [hb] at h
    replace h : (match VecBlob.deserialize E vm sv r1 with
      | Outcome.ok (entries, r2) =>
        Outcome.ok (({ FamStructWrapper.fromEntries H entries with
          header := hd } : FamStructWrapper α ε), r2)
      | Outcome.err x => Outcome.err x
      | Outcome.panicked => Outcome.panicked) = Outcome.ok (w, rest) := h
    cases hv : VecBlob.deserialize E vm sv r1 with
    | ok q =>
      obtain ⟨es, r2⟩ := q
      rw [hv] at h
      have h' : Outcome.ok
          (({ FamStructWrapper.fromEntries H es with
            header := hd } : FamStructWrapper α ε), r2) =
          Outcome.ok (w, rest) := h
      injection h' with h1
      have h2 : ({ FamStructWrapper.fromEntries H es with
          header := hd } : FamStructWrapper α ε) = w := congrArg Prod.fst h1
      rw [← h2]
      exact hhd
    | err x =>
      rw [hv] at h
      have h' : (Outcome.err x : Outcome (FamStructWrapper α ε × ByteStream)) =
          Outcome.ok (w, rest) := h
      cases h'
    | panicked =>
      rw [hv] at h
      have h' : (Outcome.panicked : Outcome (FamStructWrapper α ε × ByteStream)) =
          Outcome.ok (w, rest) := h
      cases h'
  | err x =>
    rw [hb] at h
    have h' : (Outcome.err x : Outcome (FamStructWrapper α ε × ByteStream)) =
        Outcome.ok (w, rest) := h
    cases h'
  | panicked =>
    rw [hb] at h
    have h' : (Outcome.panicked : Outcome (FamStructWrapper α ε × ByteStream)) =
        Outcome.ok (w, rest) := h
    cases h'

/-- C4 witness. -/
theorem famBlob_header_assigned_witness :
    (⟨⟨toU32 3, toU32 7⟩, [toU8 5]⟩ : FamStructWrapper TestHeader TestEntry).header =
      TestHeader.ops.toLayout.ofBytes
        (([3, 0, 0, 0, 7, 0, 0, 0, 1, 0, 0, 0, 0, 0, 0, 0, 5] : ByteStream).take
          TestHeader.ops.toLayout.size) :=
  famBlob_header_assigned_from_stream TestHeader.ops TestEntry.layout () 1
    [3, 0, 0, 0, 7, 0, 0, 0, 1, 0, 0, 0, 0, 0, 0, 0, 5]
    ⟨⟨toU32 3, toU32 7⟩, [toU8 5]⟩ [] (by decide)

/-- C5 — Blob round-trip: for every layout, value and version arguments,
deserializing the bytes written by `Blob::serialize` yields the value back
with nothing left over. -/
theorem blob_roundTrip {V W : Type} (L : Layout α) (a : α) (vm : V)
    (tv : Nat) (vm' : W) (sv : Nat) :
    Blob.deserialize L vm' sv (Blob.serialize L a vm tv []) = .ok (a, []) := by
  unfold Blob.serialize Blob.writeBytes
  rw [List.nil_append]
  have h := Blob.deserialize_append L vm' sv a []
  rw [List.append_nil] at h
  exact h

/-- C6 — Blob encode output: `Blob::serialize` appends to the sink exactly
the value's raw byte image — `size_of(T)` bytes, no length indicator and
no version tag on the wire. -/
theorem blob_serialize_exact_image {V : Type} (L : Layout α) (a : α)
    (vm : V) (tv : Nat) (sink : List Byte) :
    Blob.serialize L a vm tv sink = sink ++ L.toBytes a ∧
    (L.toBytes a).length = L.size :=
  ⟨rfl, L.toBytes_length a⟩

/-- C7 — Decode atomicity fails on the code: with a complete eight-byte
header followed by a length indicator announcing one entry but no entry
bytes, `FamBlob::deserialize` panics — the per-entry `Blob::deserialize`
unwraps its failed read — instead of returning a typed error as the claim
states; no wrapper escapes, but no error is returned either. -/
theorem famBlob_mid_entry_truncation_panics :
    FamBlob.deserialize TestHeader.ops TestEntry.layout () 1
      [1, 0, 0, 0, 7, 0, 0, 0, 1, 0, 0, 0, 0, 0, 0, 0] = .panicked := by
  decide

/-- C8 — Wire ordering: the bytes written by `FamBlob::serialize` are the
header's size_of(T)-byte raw image first, then the entries stream, which
itself starts with its explicit length indicator followed by the entry
images; and `FamBlob::deserialize` consumes a stream of exactly that shape
in the same order, leaving trailing bytes unread. -/
theorem famBlob_wire_order {V W : Type} (H : FamStructOps α) (E : Layout ε)
    (w : FamStructWrapper α ε) (vm : V) (tv : Nat) (sink : List Byte)
    (vm' : W) (sv : Nat) (hd : α) (es : List ε) (extra : ByteStream)
    (hfit : es.length < 2 ^ 64) :
    FamBlob.serialize H E w vm tv sink =
      sink ++ H.toLayout.toBytes w.header ++
        (natToLeBytes 8 (w.asSlice H).length ++
          (w.asSlice H).flatMap E.toBytes) ∧
    FamBlob.deserialize H E vm' sv
      (H.toLayout.toBytes hd ++
        (natToLeBytes 8 es.length ++ (es.flatMap E.toBytes ++ extra))) =
      .ok (⟨hd, es⟩, extra) :=
  ⟨FamBlob.serialize_eq H E w vm tv sink,
    FamBlob.deserialize_wire_shape H E vm' sv hd es extra hfit⟩

/-- C8 witness. -/
theorem famBlob_wire_order_witness :
    FamBlob.serialize TestHeader.ops TestEntry.layout
      ⟨⟨toU32 1, toU32 3⟩, [toU8 9]⟩ () 1 [5] =
      [5] ++ TestHeader.ops.toLayout.toBytes
        ((⟨⟨toU32 1, toU32 3⟩, [toU8 9]⟩ :
          FamStructWrapper TestHeader TestEntry).header) ++
        (natToLeBytes 8 ((⟨⟨toU32 1, toU32 3⟩, [toU8 9]⟩ :
            FamStructWrapper TestHeader TestEntry).asSlice TestHeader.ops).length ++
          ((⟨⟨toU32 1, toU32 3⟩, [toU8 9]⟩ :
            FamStructWrapper TestHeader TestEntry).asSlice
              TestHeader.ops).flatMap TestEntry.layout.toBytes) ∧
    FamBlob.deserialize TestHeader.ops TestEntry.layout () 1
      (TestHeader.ops.toLayout.toBytes (⟨toU32 2, toU32 4⟩ : TestHeader) ++
        (natToLeBytes 8 ([toU8 6] : List TestEntry).length ++
          (([toU8 6] : List TestEntry).flatMap TestEntry.layout.toBytes ++
            [7, 7]))) =
      .ok (⟨⟨toU32 2, toU32 4⟩, [toU8 6]⟩, [7, 7]) :=
  famBlob_wire_order TestHeader.ops TestEntry.layout
    ⟨⟨toU32 1, toU32 3⟩, [toU8 9]⟩ () 1 [5] () 1 ⟨toU32 2, toU32 4⟩
    [toU8 6] [7, 7] (by decide)

/-- C9 — Version independence of the blob codec: for any two version-map
values (of any two types) and any two target or source versions, both the
serialize output and the deserialize result of the Blob codec are
identical, the declared schema version is 1, and the bytes written by
`FamBlob::serialize` — in particular its header-image step — do not depend
on the version arguments either. -/
theorem blob_version_arguments_ignored {V₁ V₂ : Type} (L : Layout α)
    (H : FamStructOps β) (E : Layout ε) (w : FamStructWrapper β ε) (a : α)
    (r : ByteStream) (sink : List Byte) (vm₁ : V₁) (vm₂ : V₂)
    (tv₁ tv₂ sv₁ sv₂ : Nat) :
    Blob.serialize L a vm₁ tv₁ sink = Blob.serialize L a vm₂ tv₂ sink ∧
    Blob.deserialize L vm₁ sv₁ r = Blob.deserialize L vm₂ sv₂ r ∧
    Blob.version = 1 ∧
    FamBlob.serialize H E w vm₁ tv₁ sink = FamBlob.serialize H E w vm₂ tv₂ sink :=
  ⟨rfl, rfl, rfl, rfl⟩

/-- C10 — Frame property of the blob codec: deserializing from a reader
that holds at least `size_of(T)` bytes consumes exactly the first
`size_of(T)` bytes and leaves every subsequent byte unread, and
serializing appends exactly the `size_of(T)`-byte image and nothing
more. -/
theorem blob_frame {V W : Type} (L : Layout α) (vm : V) (sv : Nat)
    (vm' : W) (tv : Nat) (a : α) (sink : List Byte) (r : ByteStream)
    (h : L.size ≤ r.length) :
    Blob.deserialize L vm sv r =
      .ok (L.ofBytes (r.take L.size), r.drop L.size) ∧
    Blob.serialize L a vm' tv sink = sink ++ L.toBytes a ∧
    (L.toBytes a).length = L.size := by
  refine ⟨?_, rfl, L.toBytes_length a⟩
  unfold Blob.deserialize readExact
  rw [if_pos h]

/-- C10 witness. -/
theorem blob_frame_witness :
    Blob.deserialize TestEntry.layout () 1 [5, 6, 7] =
      .ok (TestEntry.layout.ofBytes (([5, 6, 7] : ByteStream).take
        TestEntry.layout.size), ([5, 6, 7] : ByteStream).drop
          TestEntry.layout.size) ∧
    Blob.serialize TestEntry.layout (toU8 9) () 1 [1] =
      [1] ++ TestEntry.layout.toBytes (toU8 9) ∧
    (TestEntry.layout.toBytes (toU8 9)).length = TestEntry.layout.size :=
  blob_frame TestEntry.layout () 1 () 1 (toU8 9) [1] [5, 6, 7] (by decide)
